import Mathlib

/-!
Verification of the depth-first-search maze solver (`dfs.go`, `main.go`).

The Go source is shallowly embedded: the mutable `Maze`/`DepthFirstSearch`
state becomes explicit state passing, the `for {}` loop in `Solve` becomes a
fuel-indexed recursion, and the global `math/rand` source becomes an explicit
stream of draws (`RNG`), one draw consumed per `rand.Intn` call with the value
taken modulo the bound.  I/O (all `fmt.Println` calls, the `Debug` traces) is
dropped; it does not influence the search state.
-/

namespace GoMaze

/-- `type Point struct { Row, Col int }` from `main.go`.  Go `int` is modelled
as `Int` (rows/columns go negative in candidate generation). -/
structure Point where
  Row : Int
  Col : Int
deriving DecidableEq

/-- `type Wall struct { State Point; wall bool }` from `main.go`. -/
structure Wall where
  State : Point
  wall : Bool
deriving DecidableEq

/-- `type Node struct { index int; State Point; Parent *Node; Action string }`
from `main.go`.  The unused `index` field is dropped; the nil-able `Parent`
pointer becomes `Option Node`. -/
inductive Node where
  | mk (State : Point) (Parent : Option Node) (Action : String)

/-- Accessor for the `State` field of a `Node`. -/
def Node.State : Node → Point
  | .mk s _ _ => s

/-- Accessor for the `Parent` field of a `Node`. -/
def Node.Parent : Node → Option Node
  | .mk _ p _ => p

/-- Accessor for the `Action` field of a `Node`. -/
def Node.Action : Node → String
  | .mk _ _ a => a

/-- `type Solution struct { Action []string; Cells []Point }` from `main.go`. -/
structure Solution where
  Action : List String
  Cells : List Point
deriving DecidableEq

/-- `type Maze struct {...}` from `main.go`.  The presentation-only fields
`Steps`, `Debug` and `SearchType` are dropped (they never influence the
search); `NumExplored` is a `Nat` because the code only resets it to `0` and
increments it. -/
structure Maze where
  Height : Int
  Width : Int
  Start : Point
  Goal : Point
  Walls : List (List Wall)
  CurrentNode : Node := Node.mk ⟨0, 0⟩ (none) ""
  Solution : Solution := ⟨[], []⟩
  Explored : List Point := []
  NumExplored : Nat := 0

/-- The `math/rand` global source, modelled as an infinite stream `f` of raw
draws together with a cursor `k`; each `rand.Intn n` call consumes one draw
and reduces it modulo `n` to land in `[0, n)`. -/
structure RNG where
  f : Nat → Nat
  k : Nat

/-- Advance the stream cursor past one consumed draw. -/
def RNG.next (r : RNG) : RNG := ⟨r.f, r.k + 1⟩

/-- `rand.Intn n`: the next draw, reduced into `[0, n)`. -/
def RNG.intn (r : RNG) (n : Nat) : Nat := r.f r.k % n

/-- How a `Solve` run ended.  `Solved`/`Exhausted` are the two returns of the
Go `Solve`; `PopError` is the `err != nil` return after `Remove` (shown
unreachable below); `OutOfFuel` is a model artifact marking insufficient fuel
for the `for {}` loop. -/
inductive Outcome where
  | Solved
  | Exhausted
  | PopError
  | OutOfFuel
deriving DecidableEq

/-- The state of the engine when `Solve` returns: the maze (with solution,
explored history and counters), the remaining frontier, the RNG position and
how the run ended. -/
structure SolveResult where
  game : Maze
  frontier : List Node
  rng : RNG
  outcome : Outcome

/-- `func (dfs *DepthFirstSearch) Add(i *Node)`: append to the frontier tail. -/
def Add (frontier : List Node) (i : Node) : List Node := frontier ++ [i]

/-- `func (dfs *DepthFirstSearch) ContainsState(i *Node) bool`: linear scan
comparing `State` fields. -/
def ContainsState : List Node → Node → Bool
  | [], _ => false
  | x :: xs, i => if x.State = i.State then true else ContainsState xs i

/-- `func (dfs *DepthFirstSearch) Empty() bool`: `len(dfs.Frontier) == 0`. -/
def Empty (frontier : List Node) : Bool := frontier.length == 0

/-- `func (dfs *DepthFirstSearch) Remove() (*Node, error)`: take the tail
element (LIFO) or fail with the `"empty frontier"` error, here `none`. -/
def Remove (frontier : List Node) : Option (Node × List Node) :=
  match frontier.getLast? with
  | some node => some (node, frontier.dropLast)
  | none => none

/-- Modelled from the spec: the repository's `helpers.go` is not under `src/`,
but the course documentation quotes `inExplored` verbatim — a linear scan over
the explored history comparing `Row` and `Col` of each entry with the needle. -/
def inExplored : Point → List Point → Bool
  | _, [] => false
  | needle, point :: rest =>
    if point.Row = needle.Row ∧ point.Col = needle.Col then true
    else inExplored needle rest

/-- The validity test of `Neighbors` (dfs.go lines 159–161): row in
`[0, Height)`, column in `[0, Width)`, and `!dfs.Game.Walls[r][c].wall`.
The Go code indexes `Walls` only under the bounds guard; out-of-range list
access (a Go panic) is modelled by a blocking default. -/
def validPoint (g : Maze) (p : Point) : Bool :=
  (0 ≤ p.Row && p.Row < g.Height) && ((0 ≤ p.Col && p.Col < g.Width) &&
    !((g.Walls.getD p.Row.toNat []).getD p.Col.toNat ⟨⟨0, 0⟩, true⟩).wall)

/-- The four candidate moves of `Neighbors`, in source order: up, left,
right, down. -/
def candidates (node : Node) : List Node :=
  [Node.mk ⟨node.State.Row - 1, node.State.Col⟩ (some node) "up",
   Node.mk ⟨node.State.Row, node.State.Col - 1⟩ (some node) "left",
   Node.mk ⟨node.State.Row, node.State.Col + 1⟩ (some node) "right",
   Node.mk ⟨node.State.Row + 1, node.State.Col⟩ (some node) "down"]

/-- The `neighbors` slice of `Neighbors` just before the shuffle: the valid
candidates, in candidate order. -/
def neighborsOrdered (g : Maze) (node : Node) : List Node :=
  (candidates node).filter (fun x => validPoint g x.State)

/-- One Go slice-swap `l[i], l[j] = l[j], l[i]`; indices out of range leave
the list unchanged (never exercised by the shuffle below). -/
def swapAt (l : List α) (i j : Nat) : List α :=
  match l[i]?, l[j]? with
  | some a, some b => (l.set i b).set j a
  | _, _ => l

/-- The loop `for i := range neighbors { j := rand.Intn(i+1); swap }` of
`Neighbors`, consuming one draw per iteration; `fuel` counts the remaining
iterations and is started at the (swap-invariant) list length. -/
def shuffleGo : Nat → Nat → List α → RNG → List α × RNG
  | 0, _, l, r => (l, r)
  | n + 1, i, l, r => shuffleGo n (i + 1) (swapAt l i (r.intn (i + 1))) r.next

/-- The unconditional Fisher–Yates shuffle applied by `Neighbors` to the
filtered candidate list. -/
def shuffle (l : List α) (r : RNG) : List α × RNG := shuffleGo l.length 0 l r

/-- `func (dfs *DepthFirstSearch) Neighbors(node *Node) []*Node`: generate the
four candidates, keep the valid ones in order, then shuffle them. -/
def Neighbors (g : Maze) (node : Node) (r : RNG) : List Node × RNG :=
  shuffle (neighborsOrdered g node) r

/-- The `actions` list collected by the reconstruction loop of `Solve`
(goal-to-root order, stopping before the parentless root), before `slices.Reverse`. -/
def pathActions : Node → List String
  | .mk _ (none) _ => []
  | .mk _ (some p) a => a :: pathActions p

/-- The `cells` list collected by the reconstruction loop of `Solve`
(goal-to-root order, stopping before the parentless root), before `slices.Reverse`. -/
def pathCells : Node → List Point
  | .mk _ (none) _ => []
  | .mk s (some p) _ => s :: pathCells p

/-- The neighbor-insertion loop of `Solve` (dfs.go lines 118–128): for each
shuffled neighbor, if its state is in neither the (evolving) frontier nor the
explored history, push a fresh node with parent `currentNode`. -/
def addNeighbors (currentNode : Node) (explored : List Point) :
    List Node → List Node → List Node
  | frontier, [] => frontier
  | frontier, x :: xs =>
    if !ContainsState frontier x && !inExplored x.State explored then
      addNeighbors currentNode explored
        (Add frontier (Node.mk x.State (some currentNode) x.Action)) xs
    else
      addNeighbors currentNode explored frontier xs

/-- The `for {}` loop of `Solve` (dfs.go lines 71–129), with explicit fuel.
Each iteration: return `Exhausted` on an empty frontier; pop the tail node
(the `err != nil` branch becomes `PopError`); record it as current and count
it; on reaching the goal build the `Solution` (reversed actions/cells) and
append the current (goal) coordinate to the explored history; otherwise append
the coordinate to the explored history and enqueue the unexplored shuffled
neighbors. -/
def solveLoop : Nat → List Node → Maze → RNG → SolveResult
  | 0, f, g, r => ⟨g, f, r, Outcome.OutOfFuel⟩
  | fuel + 1, f, g, r =>
    if Empty f then ⟨g, f, r, Outcome.Exhausted⟩
    else
      match Remove f with
      | none => ⟨g, f, r, Outcome.PopError⟩
      | some (currentNode, rest) =>
        let g1 : Maze :=
          { g with CurrentNode := currentNode, NumExplored := g.NumExplored + 1 }
        if g1.Goal = currentNode.State then
          let actions := (pathActions currentNode).reverse
          let cells := (pathCells currentNode).reverse
          let g2 : Maze := { g1 with Solution := ⟨actions, cells⟩ }
          let g3 : Maze := { g2 with Explored := g2.Explored ++ [g2.CurrentNode.State] }
          ⟨g3, rest, r, Outcome.Solved⟩
        else
          let g2 : Maze := { g1 with Explored := g1.Explored ++ [currentNode.State] }
          let nr := Neighbors g2 currentNode r
          solveLoop fuel (addNeighbors currentNode g2.Explored rest nr.1) g2 nr.2

/-- `func (dfs *DepthFirstSearch) Solve()` as invoked through `solveDFS`
(fresh engine, empty frontier): reset `NumExplored`, push the root node
(start coordinate, nil parent, empty action), set `CurrentNode`, and run the
loop. -/
def Solve (fuel : Nat) (g : Maze) (r : RNG) : SolveResult :=
  let g0 : Maze := { g with NumExplored := 0 }
  let start : Node := Node.mk g0.Start (none) ""
  let g1 : Maze := { g0 with CurrentNode := start }
  solveLoop fuel (Add [] start) g1 r

/-! ### Specification-side definitions

These follow the spec's words (action replay, reachability) and are compared
with the embedded code; they are not part of the embedding itself. -/

/-- Follows the spec's replay rule for actions: `"up"` = row−1, `"left"` =
col−1, `"right"` = col+1, `"down"` = row+1; any other string moves nowhere. -/
def replayAction (p : Point) (a : String) : Point :=
  if a = "up" then ⟨p.Row - 1, p.Col⟩
  else if a = "left" then ⟨p.Row, p.Col - 1⟩
  else if a = "right" then ⟨p.Row, p.Col + 1⟩
  else if a = "down" then ⟨p.Row + 1, p.Col⟩
  else p

/-- The four grid cells one move away from `p` (in candidate order). -/
def movesOf (p : Point) : List Point :=
  [⟨p.Row - 1, p.Col⟩, ⟨p.Row, p.Col - 1⟩, ⟨p.Row, p.Col + 1⟩, ⟨p.Row + 1, p.Col⟩]

/-- Consistency of a node's parent chain: the root sits at `startP`, and every
other node's coordinate is its parent's coordinate moved by its action. -/
def chainOk (startP : Point) : Node → Prop
  | .mk s (none) _ => s = startP
  | .mk s (some p) a => s = replayAction p.State a ∧ chainOk startP p

/-- Reachability from `startP` by single-cell moves through cells accepted by
`valid`. -/
inductive ReachesFrom (startP : Point) (valid : Point → Bool) : Point → Prop where
  | start : ReachesFrom startP valid startP
  | step {p q : Point} : ReachesFrom startP valid p → q ∈ movesOf p →
      valid q = true → ReachesFrom startP valid q

/-- A coordinate is reachable in the maze `g` when some chain of valid moves
leads to it from `g.Start`. -/
def Reaches (g : Maze) (p : Point) : Prop :=
  ReachesFrom g.Start (validPoint g) p

/-- The finite set of open in-bounds cells of the grid. -/
def validPoints (g : Maze) : Finset Point :=
  ((Finset.range g.Height.toNat ×ˢ Finset.range g.Width.toNat).image
    (fun rc => Point.mk rc.1 rc.2)).filter (fun p => validPoint g p = true)

/-- The root node pushed by `Solve`: start coordinate, nil parent, empty
action string. -/
def startNode (g : Maze) : Node := Node.mk g.Start (none) ""

/-- The maze state right after the initialization steps of `Solve` (counter
reset, current node set to the root). -/
def initGame (g : Maze) : Maze :=
  { g with NumExplored := 0, CurrentNode := startNode g }

/-- The maze state after popping `n` and finding it to be the goal: current
node and counter updated, the solution written, the goal coordinate appended
to the explored history. -/
def solvedGame (g : Maze) (n : Node) : Maze :=
  { g with
      CurrentNode := n,
      NumExplored := g.NumExplored + 1,
      Solution := ⟨(pathActions n).reverse, (pathCells n).reverse⟩,
      Explored := g.Explored ++ [n.State] }

/-- The maze state after popping a non-goal node `n`: current node and counter
updated, its coordinate appended to the explored history. -/
def stepGame (g : Maze) (n : Node) : Maze :=
  { g with
      CurrentNode := n,
      NumExplored := g.NumExplored + 1,
      Explored := g.Explored ++ [n.State] }

/-- The invariant maintained by the `Solve` loop between iterations. -/
structure LoopInv (g : Maze) (frontier : List Node) : Prop where
  expNodup : g.Explored.Nodup
  froNodup : (frontier.map Node.State).Nodup
  froNotExp : ∀ n ∈ frontier, n.State ∉ g.Explored
  froChain : ∀ n ∈ frontier, chainOk g.Start n
  froReach : ∀ n ∈ frontier, ReachesFrom g.Start (validPoint g) n.State
  expReach : ∀ c ∈ g.Explored, ReachesFrom g.Start (validPoint g) c
  expValid : ∀ c ∈ g.Explored, c = g.Start ∨ validPoint g c = true
  froValid : ∀ n ∈ frontier, n.State = g.Start ∨ validPoint g n.State = true
  numEq : g.NumExplored = g.Explored.length

/-- Everything the loop guarantees, phrased on the result: grid geometry is
untouched, the invariant still holds, a `Solved` outcome carries a consistent
goal chain, and enough fuel rules out the fuel artifact. -/
structure MasterOut (g : Maze) (fuel : Nat) (res : SolveResult) : Prop where
  statics : res.game.Height = g.Height ∧ res.game.Width = g.Width ∧
    res.game.Start = g.Start ∧ res.game.Goal = g.Goal ∧
    res.game.Walls = g.Walls
  inv : LoopInv res.game res.frontier
  solved : res.outcome = Outcome.Solved →
    res.game.CurrentNode.State = res.game.Goal ∧
    chainOk res.game.Start res.game.CurrentNode ∧
    res.game.Solution = ⟨(pathActions res.game.CurrentNode).reverse,
                         (pathCells res.game.CurrentNode).reverse⟩ ∧
    res.game.Explored.getLast? = some res.game.Goal ∧
    ReachesFrom res.game.Start (validPoint res.game) res.game.Goal
  fuelOk : (insert g.Start (validPoints g)).card < fuel + g.Explored.length →
    res.outcome ≠ Outcome.OutOfFuel

/-! ### Concrete grids and runs used by the testable scenarios -/

/-- A grid cell as stored in `Maze.Walls`. -/
def cell (row col : Int) (b : Bool) : Wall := ⟨⟨row, col⟩, b⟩

/-- A fixed stream for concrete runs: every raw draw is `0`. -/
def rZero : RNG := ⟨fun _ => 0, 0⟩

/-- Scenario A of the spec: `"S.." / "##." / "..G"`, start `(0,0)`, goal
`(2,2)`, walls at `(1,0)` and `(1,1)`. -/
def mazeA : Maze :=
  { Height := 3, Width := 3, Start := ⟨0, 0⟩, Goal := ⟨2, 2⟩,
    Walls := [[cell 0 0 false, cell 0 1 false, cell 0 2 false],
              [cell 1 0 true, cell 1 1 true, cell 1 2 false],
              [cell 2 0 false, cell 2 1 false, cell 2 2 false]] }

/-- The nodes created along the unique passable route of scenario A. -/
def nA0 : Node := Node.mk ⟨0, 0⟩ (none) ""

/-- Scenario A chain: `(0,1)` reached from the root by `"right"`. -/
def nA1 : Node := Node.mk ⟨0, 1⟩ (some nA0) "right"

/-- Scenario A chain: `(0,2)` reached by a second `"right"`. -/
def nA2 : Node := Node.mk ⟨0, 2⟩ (some nA1) "right"

/-- Scenario A chain: `(1,2)` reached by `"down"`. -/
def nA3 : Node := Node.mk ⟨1, 2⟩ (some nA2) "down"

/-- Scenario A chain: the goal `(2,2)` reached by a second `"down"`. -/
def nA4 : Node := Node.mk ⟨2, 2⟩ (some nA3) "down"

/-- Scenario A engine state after the first pop (root explored). -/
def gA1 : Maze :=
  { mazeA with CurrentNode := nA0, NumExplored := 1, Explored := [⟨0, 0⟩] }

/-- Scenario A engine state after the second pop. -/
def gA2 : Maze :=
  { mazeA with
      CurrentNode := nA1,
      NumExplored := 2,
      Explored := [⟨0, 0⟩, ⟨0, 1⟩] }

/-- Scenario A engine state after the third pop. -/
def gA3 : Maze :=
  { mazeA with
      CurrentNode := nA2,
      NumExplored := 3,
      Explored := [⟨0, 0⟩, ⟨0, 1⟩, ⟨0, 2⟩] }

/-- Scenario A engine state after the fourth pop. -/
def gA4 : Maze :=
  { mazeA with
      CurrentNode := nA3,
      NumExplored := 4,
      Explored := [⟨0, 0⟩, ⟨0, 1⟩, ⟨0, 2⟩, ⟨1, 2⟩] }

/-- Scenario A final engine state: goal popped, solution written. -/
def gA5 : Maze :=
  { mazeA with
      CurrentNode := nA4,
      NumExplored := 5,
      Solution := ⟨["right", "right", "down", "down"],
                   [⟨0, 1⟩, ⟨0, 2⟩, ⟨1, 2⟩, ⟨2, 2⟩]⟩,
      Explored := [⟨0, 0⟩, ⟨0, 1⟩, ⟨0, 2⟩, ⟨1, 2⟩, ⟨2, 2⟩] }

/-- Scenario B of the spec: a 1×1 grid whose start equals its goal. -/
def maze11 : Maze :=
  { Height := 1, Width := 1, Start := ⟨0, 0⟩, Goal := ⟨0, 0⟩,
    Walls := [[cell 0 0 false]] }

/-- A fully open 1×3 corridor, used to exhibit the shuffle reordering. -/
def maze13 : Maze :=
  { Height := 1, Width := 3, Start := ⟨0, 0⟩, Goal := ⟨0, 2⟩,
    Walls := [[cell 0 0 false, cell 0 1 false, cell 0 2 false]] }

/-- The middle node of the open corridor, which has two valid neighbors. -/
def nd01 : Node := Node.mk ⟨0, 1⟩ (none) ""

/-- A 1×3 grid whose middle cell is a wall: start and goal are separated. -/
def mazeSep : Maze :=
  { Height := 1, Width := 3, Start := ⟨0, 0⟩, Goal := ⟨0, 2⟩,
    Walls := [[cell 0 0 false, cell 0 1 true, cell 0 2 false]] }

/-- A malformed zero-dimension grid with an out-of-bounds goal. -/
def mazeZero : Maze :=
  { Height := 0, Width := 0, Start := ⟨0, 0⟩, Goal := ⟨1, 1⟩, Walls := [] }

/-! ### Basic lemmas about the frontier and explored-set primitives -/

theorem ContainsState_iff (f : List Node) (x : Node) :
    ContainsState f x = true ↔ x.State ∈ f.map Node.State := by
  induction f with
  | nil => simp [ContainsState]
  | cons y ys ih =>
    rw [List.map_cons, List.mem_cons]
    by_cases h : y.State = x.State
    · simp [ContainsState, h]
    · rw [ContainsState, if_neg h, ih]
      constructor
      · exact Or.inr
      · rintro (hx | hx)
        · exact absurd hx.symm h
        · exact hx

theorem inExplored_iff (p : Point) (l : List Point) :
    inExplored p l = true ↔ p ∈ l := by
  induction l with
  | nil => simp [inExplored]
  | cons q qs ih =>
    by_cases h : q = p
    · subst h; simp [inExplored]
    · have h' : ¬ (q.Row = p.Row ∧ q.Col = p.Col) := by
        intro hc
        exact h (by cases q; cases p; simp_all)
      rw [inExplored, if_neg h', ih, List.mem_cons]
      constructor
      · exact Or.inr
      · rintro (hx | hx)
        · exact absurd hx.symm h
        · exact hx

theorem Empty_eq_true_iff (f : List Node) : Empty f = true ↔ f = [] := by
  cases f <;> simp [Empty]

theorem Empty_eq_false (f : List Node) (h : f ≠ []) : Empty f = false := by
  cases f with
  | nil => exact absurd rfl h
  | cons a as => simp [Empty]

theorem Remove_eq_none_iff (f : List Node) : Remove f = none ↔ f = [] := by
  cases f with
  | nil => simp [Remove]
  | cons a as =>
    rw [Remove]
    have : (a :: as).getLast? = some ((a :: as).getLast (by simp)) :=
      List.getLast?_eq_getLast _ _
    simp [this]

theorem Remove_eq_some (f : List Node) (h : f ≠ []) :
    Remove f = some (f.getLast h, f.dropLast) := by
  rw [Remove, List.getLast?_eq_getLast f h]

/-! ### The shuffle is a permutation -/

theorem cons_set_perm : ∀ (t : List α) (m : Nat) (a b : α),
    t[m]? = some b → (b :: t.set m a).Perm (a :: t) := by
  intro t
  induction t with
  | nil => intro m a b h; simp at h
  | cons c t' ih =>
    intro m a b h
    cases m with
    | zero =>
      have hcb : c = b := by simpa using h
      have h1 : (b :: (c :: t').set 0 a) = b :: a :: t' := by simp
      rw [h1, hcb]
      exact List.Perm.swap a b t'
    | succ m =>
      have hmt : t'[m]? = some b := by simpa using h
      have h1 : (b :: (c :: t').set (m + 1) a) = b :: c :: t'.set m a := by simp
      rw [h1]
      exact (List.Perm.swap c b _).trans
        (((ih m a b hmt).cons c).trans (List.Perm.swap a c t'))

theorem set_set_perm : ∀ (l : List α) (i j : Nat) (a b : α),
    l[i]? = some a → l[j]? = some b → ((l.set i b).set j a).Perm l := by
  intro l
  induction l with
  | nil => intro i j a b h; simp at h
  | cons c t ih =>
    intro i j a b hi hj
    cases i with
    | zero =>
      have hca : c = a := by simpa using hi
      cases j with
      | zero =>
        have h1 : ((c :: t).set 0 b).set 0 a = a :: t := by simp
        rw [h1, hca]
      | succ j =>
        have hjt : t[j]? = some b := by simpa using hj
        have h1 : ((c :: t).set 0 b).set (j + 1) a = b :: t.set j a := by simp
        rw [h1]
        exact (cons_set_perm t j a b hjt).trans (by rw [hca])
    | succ i =>
      have hit : t[i]? = some a := by simpa using hi
      cases j with
      | zero =>
        have hcb : c = b := by simpa using hj
        have h1 : ((c :: t).set (i + 1) b).set 0 a = a :: t.set i b := by simp
        rw [h1]
        exact (cons_set_perm t i b a hit).trans (by rw [hcb])
      | succ j =>
        have hjt : t[j]? = some b := by simpa using hj
        have h1 : ((c :: t).set (i + 1) b).set (j + 1) a = c :: (t.set i b).set j a := by
          simp
        rw [h1]
        exact (ih i j a b hit hjt).cons c

theorem swapAt_perm (l : List α) (i j : Nat) : (swapAt l i j).Perm l := by
  rw [swapAt]
  split
  · next a b hi hj => exact set_set_perm l i j a b hi hj
  · exact List.Perm.refl l

theorem shuffleGo_perm : ∀ (n i : Nat) (l : List α) (r : RNG),
    ((shuffleGo n i l r).1).Perm l := by
  intro n
  induction n with
  | zero => intro i l r; exact List.Perm.refl l
  | succ n ih =>
    intro i l r
    exact (ih (i + 1) (swapAt l i (r.intn (i + 1))) r.next).trans
      (swapAt_perm l i (r.intn (i + 1)))

theorem shuffle_perm (l : List α) (r : RNG) : ((shuffle l r).1).Perm l :=
  shuffleGo_perm l.length 0 l r

theorem shuffle_mem {l : List α} {r : RNG} {x : α} (h : x ∈ (shuffle l r).1) :
    x ∈ l := (shuffle_perm l r).mem_iff.mp h

/-! ### Concrete evaluation of small shuffles -/

theorem swapAt_zero_mod_one (a b : α) (d : Nat) :
    swapAt [a, b] 0 (d % 1) = [a, b] := by
  rw [Nat.mod_one]; rfl

theorem swapAt_single (a : α) (d : Nat) : swapAt [a] 0 d = [a] := by
  cases d with
  | zero => rfl
  | succ d => rfl

theorem shuffle_single (a : α) (r : RNG) : shuffle [a] r = ([a], r.next) := by
  show shuffleGo 1 0 [a] r = ([a], r.next)
  rw [shuffleGo, shuffleGo, swapAt_single]

theorem shuffle_pair (a b : α) (r : RNG) :
    shuffle [a, b] r = ([b, a], r.next.next) ∨
    shuffle [a, b] r = ([a, b], r.next.next) := by
  show shuffleGo 2 0 [a, b] r = _ ∨ shuffleGo 2 0 [a, b] r = _
  rw [shuffleGo, shuffleGo, shuffleGo]
  rw [show r.intn 1 = r.f r.k % 1 from rfl, Nat.mod_one]
  rw [show swapAt [a, b] 0 0 = [a, b] from rfl]
  rcases Nat.mod_two_eq_zero_or_one (r.next.f r.next.k) with h | h <;>
    rw [show RNG.intn r.next 2 = r.next.f r.next.k % 2 from rfl, h]
  · left; rfl
  · right; rfl

/-! ### Path reconstruction lemmas -/

theorem pathActions_length_eq : ∀ n : Node,
    (pathActions n).length = (pathCells n).length
  | .mk _ (none) _ => rfl
  | .mk _ (some p) _ => by
    simp [pathActions, pathCells, pathActions_length_eq p]

theorem chainOk_replay : ∀ n : Node, chainOk s n →
    List.foldl replayAction s (pathActions n).reverse = n.State
  | .mk st (none) a, h => by
    simp [pathActions, Node.State]
    exact h.symm
  | .mk st (some p) a, h => by
    have ih := chainOk_replay p h.2
    simp only [pathActions, List.reverse_cons, List.foldl_append, List.foldl_cons,
      List.foldl_nil, ih, Node.State]
    exact h.1.symm

theorem replay_up (p : Point) : replayAction p "up" = ⟨p.Row - 1, p.Col⟩ := by
  rw [replayAction, if_pos rfl]

theorem replay_left (p : Point) : replayAction p "left" = ⟨p.Row, p.Col - 1⟩ := by
  rw [replayAction, if_neg (by decide), if_pos rfl]

theorem replay_right (p : Point) : replayAction p "right" = ⟨p.Row, p.Col + 1⟩ := by
  rw [replayAction, if_neg (by decide), if_neg (by decide), if_pos rfl]

theorem replay_down (p : Point) : replayAction p "down" = ⟨p.Row + 1, p.Col⟩ := by
  rw [replayAction, if_neg (by decide), if_neg (by decide), if_neg (by decide),
    if_pos rfl]

/-- Every node returned by `Neighbors` stands one move away from the expanded
node, is valid (in bounds, not a wall), and its action label matches its
coordinate delta. -/
theorem Neighbors_mem_spec (g : Maze) (n : Node) (r : RNG) :
    ∀ x ∈ (Neighbors g n r).1, x.State ∈ movesOf n.State ∧
      validPoint g x.State = true ∧ x.State = replayAction n.State x.Action := by
  intro x hx
  have hx1 : x ∈ neighborsOrdered g n := shuffle_mem hx
  obtain ⟨hmem, hval⟩ := List.mem_filter.mp hx1
  simp only [candidates, List.mem_cons, List.not_mem_nil, or_false] at hmem
  rcases hmem with rfl | rfl | rfl | rfl <;>
    exact ⟨by simp [Node.State, movesOf], hval,
      by simp [Node.State, Node.Action, replay_up, replay_left, replay_right,
        replay_down]⟩

/-- Membership in the finite set of open cells, from the boolean validity
test. -/
theorem mem_validPoints {g : Maze} {p : Point} (h : validPoint g p = true) :
    p ∈ validPoints g := by
  have hb : 0 ≤ p.Row ∧ p.Row < g.Height ∧ 0 ≤ p.Col ∧ p.Col < g.Width := by
    unfold validPoint at h
    simp only [Bool.and_eq_true, decide_eq_true_eq] at h
    exact ⟨h.1.1, h.1.2, h.2.1.1, h.2.1.2⟩
  unfold validPoints
  rw [Finset.mem_filter]
  refine ⟨?_, h⟩
  rw [Finset.mem_image]
  refine ⟨(p.Row.toNat, p.Col.toNat), ?_, ?_⟩
  · rw [Finset.mem_product]
    constructor <;> rw [Finset.mem_range] <;> omega
  · cases p with
    | mk prow pcol =>
      simp only [Point.mk.injEq]
      constructor <;> [exact Int.toNat_of_nonneg hb.1; exact Int.toNat_of_nonneg hb.2.2.1]

/-- A duplicate-free list of coordinates that are each either the start or an
open cell is no longer than the number of open cells plus one. -/
theorem explored_length_le_card (g : Maze) (l : List Point) (hnd : l.Nodup)
    (hv : ∀ c ∈ l, c = g.Start ∨ validPoint g c = true) :
    l.length ≤ (insert g.Start (validPoints g)).card := by
  classical
  have h1 : l.toFinset ⊆ insert g.Start (validPoints g) := by
    intro c hc
    rcases hv c (List.mem_toFinset.mp hc) with h | h
    · rw [h]; exact Finset.mem_insert_self _ _
    · exact Finset.mem_insert_of_mem (mem_validPoints h)
  calc l.length = l.toFinset.card := (List.toFinset_card_of_nodup hnd).symm
    _ ≤ _ := Finset.card_le_card h1

/-- `validPoint` only reads the grid geometry. -/
theorem validPoint_ext {g g' : Maze} (hh : g.Height = g'.Height)
    (hw : g.Width = g'.Width) (hwl : g.Walls = g'.Walls) :
    validPoint g = validPoint g' := by
  funext p
  unfold validPoint
  rw [hh, hw, hwl]

/-- `validPoints` only reads the grid geometry. -/
theorem validPoints_ext {g g' : Maze} (hh : g.Height = g'.Height)
    (hw : g.Width = g'.Width) (hwl : g.Walls = g'.Walls) :
    validPoints g = validPoints g' := by
  unfold validPoints
  rw [hh, hw, validPoint_ext hh hw hwl]

/-- The frontier-side invariant components, threaded through the
neighbor-insertion loop. -/
theorem addNeighbors_inv (g2 : Maze) (current : Node)
    (hcc : chainOk g2.Start current)
    (hcr : ReachesFrom g2.Start (validPoint g2) current.State) :
    ∀ (nbrs frontier : List Node),
      (∀ x ∈ nbrs, x.State ∈ movesOf current.State ∧
         validPoint g2 x.State = true ∧
         x.State = replayAction current.State x.Action) →
      (frontier.map Node.State).Nodup →
      (∀ m ∈ frontier, m.State ∉ g2.Explored) →
      (∀ m ∈ frontier, chainOk g2.Start m) →
      (∀ m ∈ frontier, ReachesFrom g2.Start (validPoint g2) m.State) →
      (∀ m ∈ frontier, m.State = g2.Start ∨ validPoint g2 m.State = true) →
      (((addNeighbors current g2.Explored frontier nbrs).map Node.State).Nodup ∧
       (∀ m ∈ addNeighbors current g2.Explored frontier nbrs, m.State ∉ g2.Explored) ∧
       (∀ m ∈ addNeighbors current g2.Explored frontier nbrs, chainOk g2.Start m) ∧
       (∀ m ∈ addNeighbors current g2.Explored frontier nbrs,
          ReachesFrom g2.Start (validPoint g2) m.State) ∧
       (∀ m ∈ addNeighbors current g2.Explored frontier nbrs,
          m.State = g2.Start ∨ validPoint g2 m.State = true)) := by
  intro nbrs
  induction nbrs with
  | nil =>
    intro frontier _ h1 h2 h3 h4 h5
    exact ⟨h1, h2, h3, h4, h5⟩
  | cons x xs ih =>
    intro frontier hspec h1 h2 h3 h4 h5
    have hspecx := hspec x (List.mem_cons_self x xs)
    have hspecxs : ∀ y ∈ xs, y.State ∈ movesOf current.State ∧
        validPoint g2 y.State = true ∧
        y.State = replayAction current.State y.Action :=
      fun y hy => hspec y (List.mem_cons_of_mem x hy)
    rw [addNeighbors]
    by_cases hC : (!ContainsState frontier x && !inExplored x.State g2.Explored) = true
    · rw [if_pos hC]
      obtain ⟨hCf, hCe⟩ : ContainsState frontier x = false ∧
          inExplored x.State g2.Explored = false := by simpa using hC
      have hnotfro : x.State ∉ frontier.map Node.State := by
        intro hmem
        rw [(ContainsState_iff frontier x).mpr hmem] at hCf
        exact Bool.noConfusion hCf
      have hnotexp : x.State ∉ g2.Explored := by
        intro hmem
        rw [(inExplored_iff x.State g2.Explored).mpr hmem] at hCe
        exact Bool.noConfusion hCe
      have hnew : Add frontier (Node.mk x.State (some current) x.Action) =
          frontier ++ [Node.mk x.State (some current) x.Action] := rfl
      apply ih (Add frontier (Node.mk x.State (some current) x.Action)) hspecxs
      · rw [hnew, List.map_append]
        simp only [List.map_cons, List.map_nil]
        rw [List.nodup_append]
        refine ⟨h1, List.nodup_singleton _, ?_⟩
        intro a ha hax
        rw [List.mem_singleton.mp hax] at ha
        exact hnotfro ha
      · rw [hnew]
        intro m hm
        rcases List.mem_append.mp hm with hm | hm
        · exact h2 m hm
        · rw [List.mem_singleton.mp hm]
          exact hnotexp
      · rw [hnew]
        intro m hm
        rcases List.mem_append.mp hm with hm | hm
        · exact h3 m hm
        · rw [List.mem_singleton.mp hm]
          exact ⟨hspecx.2.2, hcc⟩
      · rw [hnew]
        intro m hm
        rcases List.mem_append.mp hm with hm | hm
        · exact h4 m hm
        · rw [List.mem_singleton.mp hm]
          exact ReachesFrom.step hcr hspecx.1 hspecx.2.1
      · rw [hnew]
        intro m hm
        rcases List.mem_append.mp hm with hm | hm
        · exact h5 m hm
        · rw [List.mem_singleton.mp hm]
          exact Or.inr hspecx.2.1
    · rw [if_neg hC]
      exact ih frontier hspecxs h1 h2 h3 h4 h5

/-- One unfolding of the loop on a nonempty frontier, with the record updates
and the `Remove` call evaluated. -/
theorem solveLoop_succ_ne (fuel : Nat) (f : List Node) (g : Maze) (r : RNG)
    (hf : f ≠ []) :
    solveLoop (fuel + 1) f g r =
      if g.Goal = (f.getLast hf).State then
        ⟨solvedGame g (f.getLast hf), f.dropLast, r, Outcome.Solved⟩
      else
        solveLoop fuel
          (addNeighbors (f.getLast hf) (g.Explored ++ [(f.getLast hf).State])
            f.dropLast (Neighbors g (f.getLast hf) r).1)
          (stepGame g (f.getLast hf))
          (Neighbors g (f.getLast hf) r).2 := by
  simp only [solveLoop]
  rw [Empty_eq_false f hf, Remove_eq_some f hf]
  rfl

/-- The `err != nil` branch after `Remove` in `Solve` is dead code: the
`Empty` check immediately before guarantees the pop succeeds. -/
theorem solveLoop_no_popError : ∀ (fuel : Nat) (f : List Node) (g : Maze)
    (r : RNG), (solveLoop fuel f g r).outcome ≠ Outcome.PopError := by
  intro fuel
  induction fuel with
  | zero => intro f g r h; exact Outcome.noConfusion h
  | succ fuel ih =>
    intro f g r
    by_cases hf : f = []
    · subst hf
      intro h
      exact Outcome.noConfusion h
    · rw [solveLoop_succ_ne fuel f g r hf]
      by_cases hg : g.Goal = (f.getLast hf).State
      · rw [if_pos hg]
        intro h
        exact Outcome.noConfusion h
      · rw [if_neg hg]
        exact ih _ _ _

/-- When the run ends by frontier exhaustion, the `Solution` field is never
written: the "no solution" outcome leaves it as it was. -/
theorem solveLoop_exhausted_solution : ∀ (fuel : Nat) (f : List Node)
    (g : Maze) (r : RNG), (solveLoop fuel f g r).outcome = Outcome.Exhausted →
    (solveLoop fuel f g r).game.Solution = g.Solution := by
  intro fuel
  induction fuel with
  | zero => intro f g r h; exact absurd h (by intro h; exact Outcome.noConfusion h)
  | succ fuel ih =>
    intro f g r
    by_cases hf : f = []
    · subst hf
      intro _
      rfl
    · rw [solveLoop_succ_ne fuel f g r hf]
      by_cases hg : g.Goal = (f.getLast hf).State
      · rw [if_pos hg]
        intro h
        exact absurd h (by intro h; exact Outcome.noConfusion h)
      · rw [if_neg hg]
        exact ih _ _ _

/-- Main loop invariant theorem, by induction on the fuel. -/
theorem solveLoop_master : ∀ (fuel : Nat) (f : List Node) (g : Maze) (r : RNG),
    LoopInv g f → MasterOut g fuel (solveLoop fuel f g r) := by
  intro fuel
  induction fuel with
  | zero =>
    intro f g r hInv
    refine ⟨⟨rfl, rfl, rfl, rfl, rfl⟩, hInv, ?_, ?_⟩
    · intro h; exact absurd h (by intro h; exact Outcome.noConfusion h)
    · intro hcard _
      have hle := explored_length_le_card g g.Explored hInv.expNodup hInv.expValid
      omega
  | succ fuel ih =>
    intro f g r hInv
    by_cases hf : f = []
    · subst hf
      refine ⟨⟨rfl, rfl, rfl, rfl, rfl⟩, hInv, ?_, ?_⟩
      · intro h; exact absurd h (by intro h; exact Outcome.noConfusion h)
      · intro _ h; exact Outcome.noConfusion h
    · have hmem : f.getLast hf ∈ f := List.getLast_mem hf
      have hsplit : f.dropLast ++ [f.getLast hf] = f :=
        List.dropLast_append_getLast hf
      have hmapsplit : (f.dropLast.map Node.State) ++ [(f.getLast hf).State] =
          f.map Node.State := by
        conv_rhs => rw [← hsplit]
        simp
      have hfroNodup := hInv.froNodup
      rw [← hmapsplit, List.nodup_append] at hfroNodup
      have hrestNodup : (f.dropLast.map Node.State).Nodup := hfroNodup.1
      have hrestNotLast : (f.getLast hf).State ∉ f.dropLast.map Node.State := by
        intro hmem2
        exact hfroNodup.2.2 hmem2 (by simp)
      have hrestMem : ∀ m ∈ f.dropLast, m ∈ f := by
        intro m hm
        rw [← hsplit]
        exact List.mem_append_left _ hm
      have hexpNodup2 : (g.Explored ++ [(f.getLast hf).State]).Nodup := by
        rw [List.nodup_append]
        refine ⟨hInv.expNodup, List.nodup_singleton _, ?_⟩
        intro a ha hax
        rw [List.mem_singleton.mp hax] at ha
        exact hInv.froNotExp _ hmem ha
      have hrestNotExp2 : ∀ m ∈ f.dropLast,
          m.State ∉ g.Explored ++ [(f.getLast hf).State] := by
        intro m hm hmem2
        rcases List.mem_append.mp hmem2 with h | h
        · exact hInv.froNotExp m (hrestMem m hm) h
        · have hms : m.State = (f.getLast hf).State := List.mem_singleton.mp h
          exact hrestNotLast (hms ▸ List.mem_map_of_mem Node.State hm)
      rw [solveLoop_succ_ne fuel f g r hf]
      by_cases hg : g.Goal = (f.getLast hf).State
      · rw [if_pos hg]
        refine ⟨⟨rfl, rfl, rfl, rfl, rfl⟩, ?_, ?_, ?_⟩
        · exact
            { expNodup := hexpNodup2
              froNodup := hrestNodup
              froNotExp := hrestNotExp2
              froChain := fun m hm => hInv.froChain m (hrestMem m hm)
              froReach := fun m hm => hInv.froReach m (hrestMem m hm)
              expReach := by
                intro c hc
                rcases List.mem_append.mp hc with h | h
                · exact hInv.expReach c h
                · rw [List.mem_singleton.mp h]
                  exact hInv.froReach _ hmem
              expValid := by
                intro c hc
                rcases List.mem_append.mp hc with h | h
                · exact hInv.expValid c h
                · rw [List.mem_singleton.mp h]
                  exact hInv.froValid _ hmem
              froValid := fun m hm => hInv.froValid m (hrestMem m hm)
              numEq := by
                show g.NumExplored + 1 = (g.Explored ++ [(f.getLast hf).State]).length
                rw [List.length_append, List.length_singleton, hInv.numEq] }
        · intro _
          refine ⟨hg.symm, hInv.froChain _ hmem, rfl, ?_, ?_⟩
          · show (g.Explored ++ [(f.getLast hf).State]).getLast? = some g.Goal
            rw [List.getLast?_concat, hg]
          · show ReachesFrom g.Start (validPoint g) g.Goal
            rw [hg]
            exact hInv.froReach _ hmem
        · intro _ h
          exact Outcome.noConfusion h
      · rw [if_neg hg]
        have hspec := Neighbors_mem_spec g (f.getLast hf) r
        have hadd := addNeighbors_inv (stepGame g (f.getLast hf))
          (f.getLast hf) (hInv.froChain _ hmem) (hInv.froReach _ hmem)
          (Neighbors g (f.getLast hf) r).1 f.dropLast hspec
          hrestNodup hrestNotExp2
          (fun m hm => hInv.froChain m (hrestMem m hm))
          (fun m hm => hInv.froReach m (hrestMem m hm))
          (fun m hm => hInv.froValid m (hrestMem m hm))
        have hInv2 : LoopInv (stepGame g (f.getLast hf))
            (addNeighbors (f.getLast hf)
              (g.Explored ++ [(f.getLast hf).State]) f.dropLast
              (Neighbors g (f.getLast hf) r).1) :=
          { expNodup := hexpNodup2
            froNodup := hadd.1
            froNotExp := hadd.2.1
            froChain := hadd.2.2.1
            froReach := hadd.2.2.2.1
            expReach := by
              intro c hc
              rcases List.mem_append.mp hc with h | h
              · exact hInv.expReach c h
              · rw [List.mem_singleton.mp h]
                exact hInv.froReach _ hmem
            expValid := by
              intro c hc
              rcases List.mem_append.mp hc with h | h
              · exact hInv.expValid c h
              · rw [List.mem_singleton.mp h]
                exact hInv.froValid _ hmem
            froValid := hadd.2.2.2.2
            numEq := by
              show g.NumExplored + 1 = (g.Explored ++ [(f.getLast hf).State]).length
              rw [List.length_append, List.length_singleton, hInv.numEq] }
        have hmo := ih _ _ (Neighbors g (f.getLast hf) r).2 hInv2
        refine ⟨⟨hmo.statics.1, hmo.statics.2.1, hmo.statics.2.2.1,
          hmo.statics.2.2.2.1, hmo.statics.2.2.2.2⟩, hmo.inv, hmo.solved, ?_⟩
        intro hcard
        apply hmo.fuelOk
        show (insert g.Start (validPoints g)).card <
          fuel + (g.Explored ++ [(f.getLast hf).State]).length
        rw [List.length_append, List.length_singleton]
        omega

/-- `Solve` is the loop started on the singleton root frontier with the
counter reset. -/
theorem Solve_eq (fuel : Nat) (g : Maze) (r : RNG) :
    Solve fuel g r = solveLoop fuel [startNode g] (initGame g) r := rfl

/-- The master theorem applied to a fresh run of `Solve` (empty explored
history, as after `Load`). -/
theorem Solve_master (fuel : Nat) (g : Maze) (r : RNG)
    (hexp : g.Explored = []) : MasterOut (initGame g) fuel (Solve fuel g r) := by
  rw [Solve_eq]
  apply solveLoop_master
  refine
    { expNodup := ?_, froNodup := ?_, froNotExp := ?_, froChain := ?_,
      froReach := ?_, expReach := ?_, expValid := ?_, froValid := ?_,
      numEq := ?_ }
  · show g.Explored.Nodup
    rw [hexp]
    exact List.nodup_nil
  · simp
  · intro m hm
    show m.State ∉ g.Explored
    rw [hexp]
    exact List.not_mem_nil _
  · intro m hm
    rw [List.mem_singleton.mp hm]
    exact rfl
  · intro m hm
    rw [List.mem_singleton.mp hm]
    exact ReachesFrom.start
  · intro c hc
    rw [show (initGame g).Explored = [] from hexp] at hc
    exact absurd hc (List.not_mem_nil c)
  · intro c hc
    rw [show (initGame g).Explored = [] from hexp] at hc
    exact absurd hc (List.not_mem_nil c)
  · intro m hm
    rw [List.mem_singleton.mp hm]
    exact Or.inl rfl
  · show 0 = g.Explored.length
    rw [hexp]
    rfl

/-! ### Stepping through the scenario-A run, for every RNG stream

Scenario A has a unique passable route; at each expansion at most one
neighbor survives the explored-set check, so the engine state after each pop
does not depend on how the shuffle ordered the neighbor list. -/

theorem stepA5 (fuel : Nat) (r : RNG) :
    solveLoop (fuel + 1) [nA4] gA4 r = ⟨gA5, [], r, Outcome.Solved⟩ := rfl

theorem stepA4 (fuel : Nat) (r : RNG) :
    solveLoop (fuel + 1 + 1) [nA3] gA3 r =
      ⟨gA5, [], r.next.next, Outcome.Solved⟩ := by
  have h1 : solveLoop (fuel + 1 + 1) [nA3] gA3 r =
      solveLoop (fuel + 1)
        (addNeighbors nA3 gA4.Explored []
          (shuffle [Node.mk ⟨0, 2⟩ (some nA3) "up",
            Node.mk ⟨2, 2⟩ (some nA3) "down"] r).1)
        gA4
        (shuffle [Node.mk ⟨0, 2⟩ (some nA3) "up",
          Node.mk ⟨2, 2⟩ (some nA3) "down"] r).2 := rfl
  rcases shuffle_pair (Node.mk ⟨0, 2⟩ (some nA3) "up")
      (Node.mk ⟨2, 2⟩ (some nA3) "down") r with h | h <;>
    rw [h1, h] <;> exact stepA5 fuel r.next.next

theorem stepA3 (fuel : Nat) (r : RNG) :
    solveLoop (fuel + 1 + 1 + 1) [nA2] gA2 r =
      ⟨gA5, [], r.next.next.next.next, Outcome.Solved⟩ := by
  have h1 : solveLoop (fuel + 1 + 1 + 1) [nA2] gA2 r =
      solveLoop (fuel + 1 + 1)
        (addNeighbors nA2 gA3.Explored []
          (shuffle [Node.mk ⟨0, 1⟩ (some nA2) "left",
            Node.mk ⟨1, 2⟩ (some nA2) "down"] r).1)
        gA3
        (shuffle [Node.mk ⟨0, 1⟩ (some nA2) "left",
          Node.mk ⟨1, 2⟩ (some nA2) "down"] r).2 := rfl
  rcases shuffle_pair (Node.mk ⟨0, 1⟩ (some nA2) "left")
      (Node.mk ⟨1, 2⟩ (some nA2) "down") r with h | h <;>
    rw [h1, h] <;> exact stepA4 fuel r.next.next

theorem stepA2 (fuel : Nat) (r : RNG) :
    solveLoop (fuel + 1 + 1 + 1 + 1) [nA1] gA1 r =
      ⟨gA5, [], r.next.next.next.next.next.next, Outcome.Solved⟩ := by
  have h1 : solveLoop (fuel + 1 + 1 + 1 + 1) [nA1] gA1 r =
      solveLoop (fuel + 1 + 1 + 1)
        (addNeighbors nA1 gA2.Explored []
          (shuffle [Node.mk ⟨0, 0⟩ (some nA1) "left",
            Node.mk ⟨0, 2⟩ (some nA1) "right"] r).1)
        gA2
        (shuffle [Node.mk ⟨0, 0⟩ (some nA1) "left",
          Node.mk ⟨0, 2⟩ (some nA1) "right"] r).2 := rfl
  rcases shuffle_pair (Node.mk ⟨0, 0⟩ (some nA1) "left")
      (Node.mk ⟨0, 2⟩ (some nA1) "right") r with h | h <;>
    rw [h1, h] <;> exact stepA3 fuel r.next.next

theorem stepA1 (fuel : Nat) (r : RNG) :
    solveLoop (fuel + 1 + 1 + 1 + 1 + 1) [nA0] (initGame mazeA) r =
      ⟨gA5, [], r.next.next.next.next.next.next.next, Outcome.Solved⟩ := by
  have h1 : solveLoop (fuel + 1 + 1 + 1 + 1 + 1) [nA0] (initGame mazeA) r =
      solveLoop (fuel + 1 + 1 + 1 + 1)
        (addNeighbors nA0 gA1.Explored []
          (shuffle [Node.mk ⟨0, 1⟩ (some nA0) "right"] r).1)
        gA1
        (shuffle [Node.mk ⟨0, 1⟩ (some nA0) "right"] r).2 := rfl
  rw [h1, shuffle_single (Node.mk ⟨0, 1⟩ (some nA0) "right") r]
  exact stepA2 fuel r.next

/-- Every `ReachesFrom` chain in the separated 1×3 corridor stays on the
start cell: the wall at `(0,1)` blocks every move. -/
theorem mazeSep_reaches_only_start :
    ∀ p, ReachesFrom mazeSep.Start (validPoint mazeSep) p → p = ⟨0, 0⟩ := by
  intro p hp
  induction hp with
  | start => rfl
  | step h1 h2 h3 ih =>
    rw [ih] at h2
    simp only [movesOf, List.mem_cons, List.not_mem_nil, or_false] at h2
    rcases h2 with rfl | rfl | rfl | rfl <;> exact absurd h3 (by decide)

/-! ### Claim theorems -/

/-- C1 (counterexample): on the scenario-A grid the Solution's coordinate
sequence is not the claimed five-element sequence starting at `(0,0)` — the
start cell is not part of `Solution.Cells`. -/
theorem c1_counterexample :
    (Solve 9 mazeA rZero).game.Solution.Cells ≠
      [⟨0, 0⟩, ⟨0, 1⟩, ⟨0, 2⟩, ⟨1, 2⟩, ⟨2, 2⟩] := by decide

/-- C1 (amended): for every RNG stream and any sufficient fuel, `Solve` on the
scenario-A grid ends `Solved` with action sequence
`["right","right","down","down"]` and coordinate sequence
`(0,1),(0,2),(1,2),(2,2)` — the start cell `(0,0)` excluded. -/
theorem c1_scenarioA_amended (fuel : Nat) (r : RNG) :
    (Solve (fuel + 5) mazeA r).outcome = Outcome.Solved ∧
    (Solve (fuel + 5) mazeA r).game.Solution =
      ⟨["right", "right", "down", "down"],
       [⟨0, 1⟩, ⟨0, 2⟩, ⟨1, 2⟩, ⟨2, 2⟩]⟩ := by
  have he : Solve (fuel + 5) mazeA r =
      solveLoop (fuel + 1 + 1 + 1 + 1 + 1) [nA0] (initGame mazeA) r := rfl
  rw [he, stepA1 fuel r]
  exact ⟨rfl, rfl⟩

/-- C2 (counterexample): at the middle node of an open corridor the valid
candidates in generation order are left-then-right, but with the all-zero
draw stream `Neighbors` returns them right-then-left: the generation order is
not preserved in the returned list. -/
theorem c2_counterexample :
    ((Neighbors maze13 nd01 rZero).1).map Node.Action ≠ ["left", "right"] ∧
    (neighborsOrdered maze13 nd01).map Node.Action = ["left", "right"] := by
  decide

/-- C2 (amended): `Neighbors` generates and validity-filters the candidates in
the fixed order up, left, right, down (the filtered list is a sublist of the
candidate list), but then applies an unconditional Fisher–Yates shuffle, so
the returned list is only guaranteed to be a permutation of that ordered
list. -/
theorem c2_neighbors_perm (g : Maze) (n : Node) (r : RNG) :
    ((Neighbors g n r).1).Perm (neighborsOrdered g n) ∧
    List.Sublist (neighborsOrdered g n) (candidates n) :=
  ⟨shuffle_perm _ r, List.filter_sublist _⟩

/-- C3: with fuel beyond the number of open cells the run never hits the fuel
bound (every call of `Solve` terminates); and when the goal is unreachable
from the start, `Solve` ends `Exhausted` with the Solution left empty, every
explored coordinate reachable and listed at most once, and the explored count
at most the number of open cells. -/
theorem c3_termination_exhaustion :
    (∀ (g : Maze) (r : RNG) (fuel : Nat), g.Explored = [] →
      (insert g.Start (validPoints g)).card < fuel →
      (Solve fuel g r).outcome ≠ Outcome.OutOfFuel) ∧
    (∀ (g : Maze) (r : RNG) (fuel : Nat), g.Explored = [] →
      g.Solution = ⟨[], []⟩ → validPoint g g.Start = true →
      (insert g.Start (validPoints g)).card < fuel →
      ¬ Reaches g g.Goal →
      (Solve fuel g r).outcome = Outcome.Exhausted ∧
      (Solve fuel g r).game.Solution = ⟨[], []⟩ ∧
      (Solve fuel g r).game.Explored.Nodup ∧
      (∀ c ∈ (Solve fuel g r).game.Explored, Reaches g c) ∧
      (Solve fuel g r).game.NumExplored ≤ (validPoints g).card) := by
  constructor
  · intro g r fuel hexp hfuel
    have hmo := Solve_master fuel g r hexp
    apply hmo.fuelOk
    show (insert g.Start (validPoints g)).card < fuel + g.Explored.length
    rw [hexp]
    simpa using hfuel
  · intro g r fuel hexp hsol hstart hfuel hsep
    have hmo := Solve_master fuel g r hexp
    have hH : (Solve fuel g r).game.Height = g.Height := hmo.statics.1
    have hW : (Solve fuel g r).game.Width = g.Width := hmo.statics.2.1
    have hS : (Solve fuel g r).game.Start = g.Start := hmo.statics.2.2.1
    have hG : (Solve fuel g r).game.Goal = g.Goal := hmo.statics.2.2.2.1
    have hWl : (Solve fuel g r).game.Walls = g.Walls := hmo.statics.2.2.2.2
    have hvp : validPoint (Solve fuel g r).game = validPoint g :=
      validPoint_ext hH hW hWl
    have hconv : ∀ c, ReachesFrom (Solve fuel g r).game.Start
        (validPoint (Solve fuel g r).game) c → Reaches g c := by
      intro c hc
      rw [hS, hvp] at hc
      exact hc
    have hnotFuel : (Solve fuel g r).outcome ≠ Outcome.OutOfFuel := by
      apply hmo.fuelOk
      show (insert g.Start (validPoints g)).card < fuel + g.Explored.length
      rw [hexp]
      simpa using hfuel
    have hnotPop : (Solve fuel g r).outcome ≠ Outcome.PopError := by
      rw [Solve_eq]
      exact solveLoop_no_popError fuel _ _ _
    have hnotSolved : (Solve fuel g r).outcome ≠ Outcome.Solved := by
      intro hs
      have hgoal := hconv _ (hmo.solved hs).2.2.2.2
      rw [hG] at hgoal
      exact hsep hgoal
    have houtcome : (Solve fuel g r).outcome = Outcome.Exhausted := by
      cases h : (Solve fuel g r).outcome
      · exact absurd h hnotSolved
      · rfl
      · exact absurd h hnotPop
      · exact absurd h hnotFuel
    refine ⟨houtcome, ?_, hmo.inv.expNodup, ?_, ?_⟩
    · have hse : (Solve fuel g r).game.Solution = g.Solution := by
        rw [Solve_eq] at houtcome ⊢
        exact solveLoop_exhausted_solution fuel _ _ _ houtcome
      rw [hse, hsol]
    · intro c hc
      exact hconv c (hmo.inv.expReach c hc)
    · have hle := explored_length_le_card (Solve fuel g r).game
        (Solve fuel g r).game.Explored hmo.inv.expNodup hmo.inv.expValid
      have hset : insert (Solve fuel g r).game.Start
          (validPoints (Solve fuel g r).game) =
          insert g.Start (validPoints g) := by
        rw [hS, validPoints_ext hH hW hWl]
      have hins : insert g.Start (validPoints g) = validPoints g :=
        Finset.insert_eq_self.mpr (mem_validPoints hstart)
      rw [hmo.inv.numEq]
      calc (Solve fuel g r).game.Explored.length
          ≤ (insert (Solve fuel g r).game.Start
              (validPoints (Solve fuel g r).game)).card := hle
        _ = (validPoints g).card := by rw [hset, hins]

/-- C3 (witness): the separated 1×3 corridor, fuel 5, all-zero draws. -/
theorem c3_witness :
    (Solve 5 mazeSep rZero).outcome ≠ Outcome.OutOfFuel ∧
    (Solve 5 mazeSep rZero).outcome = Outcome.Exhausted ∧
    (Solve 5 mazeSep rZero).game.Solution = ⟨[], []⟩ ∧
    (Solve 5 mazeSep rZero).game.Explored.Nodup ∧
    (∀ c ∈ (Solve 5 mazeSep rZero).game.Explored, Reaches mazeSep c) ∧
    (Solve 5 mazeSep rZero).game.NumExplored ≤ (validPoints mazeSep).card := by
  have hsep : ¬ Reaches mazeSep mazeSep.Goal := by
    intro h
    exact absurd (mazeSep_reaches_only_start _ h) (by decide)
  refine ⟨c3_termination_exhaustion.1 mazeSep rZero 5 rfl (by decide), ?_⟩
  exact c3_termination_exhaustion.2 mazeSep rZero 5 rfl rfl (by decide)
    (by decide) hsep

/-- C4: whenever a fresh `Solve` run returns `Solved`, replaying the
Solution's action sequence from the start coordinate under the spec's replay
rule lands exactly on the goal coordinate. -/
theorem c4_replay (g : Maze) (r : RNG) (fuel : Nat) (hexp : g.Explored = [])
    (hs : (Solve fuel g r).outcome = Outcome.Solved) :
    List.foldl replayAction g.Start (Solve fuel g r).game.Solution.Action =
      g.Goal := by
  have hmo := Solve_master fuel g r hexp
  obtain ⟨hcs, hchain, hsol, -, -⟩ := hmo.solved hs
  have hS : (Solve fuel g r).game.Start = g.Start := hmo.statics.2.2.1
  have hG : (Solve fuel g r).game.Goal = g.Goal := hmo.statics.2.2.2.1
  have hrep := chainOk_replay (Solve fuel g r).game.CurrentNode hchain
  rw [hsol]
  show List.foldl replayAction g.Start
    (pathActions (Solve fuel g r).game.CurrentNode).reverse = g.Goal
  rw [← hS, hrep, hcs, hG]

/-- C4 (witness): the scenario-A run replays onto the goal. -/
theorem c4_witness :
    mazeA.Explored = [] ∧ (Solve 9 mazeA rZero).outcome = Outcome.Solved ∧
    List.foldl replayAction mazeA.Start
      (Solve 9 mazeA rZero).game.Solution.Action = mazeA.Goal :=
  ⟨rfl, by decide, c4_replay mazeA rZero 9 rfl (by decide)⟩

/-- C5 (counterexample): on the grid whose start equals its goal, `Solve`
does return `Solved`, but the Solution's coordinate sequence is empty, not the
claimed one-element sequence holding the start cell. -/
theorem c5_counterexample :
    (Solve 2 maze11 rZero).outcome = Outcome.Solved ∧
    (Solve 2 maze11 rZero).game.Solution.Cells ≠ [⟨0, 0⟩] := by decide

/-- C5 (amended): when start equals goal, `Solve` immediately (after a single
pop) returns `Solved` with an empty action sequence and an empty coordinate
sequence. -/
theorem c5_start_eq_goal (g : Maze) (r : RNG) (fuel : Nat)
    (hsg : g.Start = g.Goal) :
    (Solve (fuel + 1) g r).outcome = Outcome.Solved ∧
    (Solve (fuel + 1) g r).game.Solution.Action = [] ∧
    (Solve (fuel + 1) g r).game.Solution.Cells = [] ∧
    (Solve (fuel + 1) g r).game.NumExplored = 1 := by
  rw [Solve_eq]
  rw [solveLoop_succ_ne fuel [startNode g] (initGame g) r (by simp)]
  rw [if_pos (show (initGame g).Goal =
    (([startNode g]).getLast (by simp)).State from hsg.symm)]
  exact ⟨rfl, rfl, rfl, rfl⟩

/-- C5 (witness): the 1×1 grid with start = goal. -/
theorem c5_witness :
    maze11.Start = maze11.Goal ∧
    (Solve 2 maze11 rZero).outcome = Outcome.Solved ∧
    (Solve 2 maze11 rZero).game.Solution.Action = [] ∧
    (Solve 2 maze11 rZero).game.Solution.Cells = [] ∧
    (Solve 2 maze11 rZero).game.NumExplored = 1 := by
  have h := c5_start_eq_goal maze11 rZero 1 rfl
  exact ⟨rfl, h.1, h.2.1, h.2.2.1, h.2.2.2⟩

/-- C6: after any fresh run of `Solve`, the explored history has pairwise
distinct coordinates (set semantics hold). -/
theorem c6_explored_nodup (g : Maze) (r : RNG) (fuel : Nat)
    (hexp : g.Explored = []) : (Solve fuel g r).game.Explored.Nodup :=
  (Solve_master fuel g r hexp).inv.expNodup

/-- C6 (witness): the scenario-A run has a duplicate-free explored history. -/
theorem c6_witness :
    mazeA.Explored = [] ∧ (Solve 9 mazeA rZero).game.Explored.Nodup :=
  ⟨rfl, c6_explored_nodup mazeA rZero 9 rfl⟩

/-- C7: `Remove` fails (with the empty-frontier error, modelled as `none`)
exactly when the frontier is empty; `Solve` never surfaces that error (the
emptiness check precedes every pop), and an `Exhausted` run leaves the
Solution untouched — exhaustion is the normal "no solution" outcome. -/
theorem c7_empty_frontier :
    (∀ f : List Node, Remove f = none ↔ f = []) ∧
    (∀ (fuel : Nat) (g : Maze) (r : RNG),
      (Solve fuel g r).outcome ≠ Outcome.PopError) ∧
    (∀ (fuel : Nat) (g : Maze) (r : RNG),
      (Solve fuel g r).outcome = Outcome.Exhausted →
      (Solve fuel g r).game.Solution = g.Solution) := by
  refine ⟨Remove_eq_none_iff, ?_, ?_⟩
  · intro fuel g r
    rw [Solve_eq]
    exact solveLoop_no_popError fuel _ _ _
  · intro fuel g r h
    rw [Solve_eq] at h ⊢
    exact solveLoop_exhausted_solution fuel _ _ _ h

/-- C7 (witness): the empty frontier fails to pop; the separated corridor run
exhausts without error and leaves the Solution as supplied. -/
theorem c7_witness :
    (Remove ([] : List Node) = none ↔ ([] : List Node) = []) ∧
    (Solve 5 mazeSep rZero).outcome ≠ Outcome.PopError ∧
    (Solve 5 mazeSep rZero).game.Solution = mazeSep.Solution :=
  ⟨c7_empty_frontier.1 [], c7_empty_frontier.2.1 5 mazeSep rZero,
   c7_empty_frontier.2.2 5 mazeSep rZero (by decide)⟩

/-- C8 (counterexample): on a zero-dimension grid with an out-of-bounds goal,
`Solve` does not reject: it runs the search loop, explores the start node and
returns the normal `Exhausted` outcome. -/
theorem c8_counterexample :
    (Solve 2 mazeZero rZero).game.NumExplored = 1 ∧
    (Solve 2 mazeZero rZero).outcome = Outcome.Exhausted := by decide

/-- C8 (amended): `Solve` performs no grid validation; on any grid with
non-positive height (so every candidate is out of bounds) and start ≠ goal it
searches anyway, exploring exactly the start node and ending `Exhausted`. -/
theorem c8_no_validation (g : Maze) (r : RNG) (fuel : Nat)
    (hh : g.Height ≤ 0) (hne : g.Start ≠ g.Goal) :
    (Solve (fuel + 2) g r).outcome = Outcome.Exhausted ∧
    (Solve (fuel + 2) g r).game.NumExplored = 1 := by
  have hnb : neighborsOrdered (initGame g) (startNode g) = [] := by
    rw [neighborsOrdered, List.filter_eq_nil_iff]
    intro x hx hv
    have hv' : validPoint g x.State = true := hv
    have hb : 0 ≤ x.State.Row ∧ x.State.Row < g.Height := by
      unfold validPoint at hv'
      simp only [Bool.and_eq_true, decide_eq_true_eq] at hv'
      exact ⟨hv'.1.1, hv'.1.2⟩
    omega
  have hN : Neighbors (initGame g) (startNode g) r = ([], r) := by
    show shuffle (neighborsOrdered (initGame g) (startNode g)) r = ([], r)
    rw [hnb]
    rfl
  show (solveLoop (fuel + 1 + 1) [startNode g] (initGame g) r).outcome =
      Outcome.Exhausted ∧
    (solveLoop (fuel + 1 + 1) [startNode g] (initGame g) r).game.NumExplored = 1
  rw [solveLoop_succ_ne (fuel + 1) [startNode g] (initGame g) r (by simp)]
  rw [if_neg (show ¬ (initGame g).Goal =
    (([startNode g]).getLast (by simp)).State from fun h => hne h.symm)]
  show (solveLoop (fuel + 1)
      (addNeighbors (startNode g) (g.Explored ++ [g.Start]) []
        (Neighbors (initGame g) (startNode g) r).1)
      (stepGame (initGame g) (startNode g))
      (Neighbors (initGame g) (startNode g) r).2).outcome =
      Outcome.Exhausted ∧
    (solveLoop (fuel + 1)
      (addNeighbors (startNode g) (g.Explored ++ [g.Start]) []
        (Neighbors (initGame g) (startNode g) r).1)
      (stepGame (initGame g) (startNode g))
      (Neighbors (initGame g) (startNode g) r).2).game.NumExplored = 1
  rw [hN]
  exact ⟨rfl, rfl⟩

/-- C8 (witness): the zero-dimension grid. -/
theorem c8_witness :
    mazeZero.Height ≤ 0 ∧ mazeZero.Start ≠ mazeZero.Goal ∧
    (Solve 2 mazeZero rZero).outcome = Outcome.Exhausted ∧
    (Solve 2 mazeZero rZero).game.NumExplored = 1 := by
  have h := c8_no_validation mazeZero rZero 0 (by decide) (by decide)
  exact ⟨by decide, by decide, h.1, h.2⟩

/-- C9 (counterexample): in the scenario-A run the coordinate appended to the
explored history during reconstruction (its last entry) is the goal's, not
the root's. -/
theorem c9_counterexample :
    (Solve 9 mazeA rZero).outcome = Outcome.Solved ∧
    (Solve 9 mazeA rZero).game.Explored.getLast? ≠ some mazeA.Start := by
  decide

/-- C9 (amended): on a `Solved` fresh run the root contributes neither an
action nor a cell to the Solution (the two lists have equal length, covering
only the non-root chain nodes), and the coordinate appended to the explored
history during reconstruction is the goal node's — which coincides with the
root's only when start = goal. -/
theorem c9_reconstruction (g : Maze) (r : RNG) (fuel : Nat)
    (hexp : g.Explored = [])
    (hs : (Solve fuel g r).outcome = Outcome.Solved) :
    (Solve fuel g r).game.Solution.Action.length =
      (Solve fuel g r).game.Solution.Cells.length ∧
    (Solve fuel g r).game.Explored.getLast? = some g.Goal := by
  have hmo := Solve_master fuel g r hexp
  obtain ⟨-, -, hsol, hlast, -⟩ := hmo.solved hs
  constructor
  · rw [hsol]
    show (pathActions (Solve fuel g r).game.CurrentNode).reverse.length =
      (pathCells (Solve fuel g r).game.CurrentNode).reverse.length
    rw [List.length_reverse, List.length_reverse]
    exact pathActions_length_eq _
  · rw [hlast]
    have hG : (Solve fuel g r).game.Goal = g.Goal := hmo.statics.2.2.2.1
    rw [hG]

/-- C9 (witness): the scenario-A run. -/
theorem c9_witness :
    mazeA.Explored = [] ∧ (Solve 9 mazeA rZero).outcome = Outcome.Solved ∧
    (Solve 9 mazeA rZero).game.Solution.Action.length =
      (Solve 9 mazeA rZero).game.Solution.Cells.length ∧
    (Solve 9 mazeA rZero).game.Explored.getLast? = some mazeA.Goal := by
  have h := c9_reconstruction mazeA rZero 9 rfl (by decide)
  exact ⟨rfl, by decide, h.1, h.2⟩

/-- C10: after any fresh run of `Solve`, however it ends, the explored count
`NumExplored` equals the length of the explored history: every pop contributes
one increment and one appended coordinate. -/
theorem c10_count_eq_length (g : Maze) (r : RNG) (fuel : Nat)
    (hexp : g.Explored = []) :
    (Solve fuel g r).game.NumExplored =
      (Solve fuel g r).game.Explored.length :=
  (Solve_master fuel g r hexp).inv.numEq

/-- C10 (witness): the scenario-A run (count 5, five explored entries). -/
theorem c10_witness :
    mazeA.Explored = [] ∧
    (Solve 9 mazeA rZero).game.NumExplored =
      (Solve 9 mazeA rZero).game.Explored.length :=
  ⟨rfl, c10_count_eq_length mazeA rZero 9 rfl⟩

end GoMaze
